import Mathlib

/-!
Verification development for the iot-blockchain repository.

The definitions below are a shallow embedding of the JavaScript sources:
src/blockchain.js, src/consensus.js, src/merkle-tree.js, src/grpc-server.js,
src/sync.js and src/chain-pruning.js.  Machine integers are modelled as Nat
reduced modulo 2^32 where the source relies on 32-bit arithmetic (SHA-256);
strings are Lean Strings (the repository only handles ASCII data);
fallible JavaScript code (thrown exceptions) is modelled with Except/Option.
-/

set_option maxRecDepth 40000

namespace IotChain

/-! ## SHA-256 (model of node crypto createHash sha256 over ASCII strings) -/

def pow32 : Nat := 4294967296

def spinR (n x : Nat) : Nat := ((x >>> n) ||| (x <<< (32 - n))) % pow32

def sumA (x : Nat) : Nat := (spinR 2 x) ^^^ (spinR 13 x) ^^^ (spinR 22 x)

def sumE (x : Nat) : Nat := (spinR 6 x) ^^^ (spinR 11 x) ^^^ (spinR 25 x)

def sigLo (x : Nat) : Nat := (spinR 7 x) ^^^ (spinR 18 x) ^^^ (x >>> 3)

def sigHi (x : Nat) : Nat := (spinR 17 x) ^^^ (spinR 19 x) ^^^ (x >>> 10)

def chf (x y z : Nat) : Nat := (x &&& y) ^^^ ((x ^^^ 4294967295) &&& z)

def majf (x y z : Nat) : Nat := (x &&& y) ^^^ (x &&& z) ^^^ (y &&& z)

/-- The 64 SHA-256 round constants, in decimal. -/
def sha256K : List Nat :=
  [1116352408, 1899447441, 3049323471, 3921009573, 961987163, 1508970993,
   2453635748, 2870763221, 3624381080, 310598401, 607225278, 1426881987,
   1925078388, 2162078206, 2614888103, 3248222580, 3835390401, 4022224774,
   264347078, 604807628, 770255983, 1249150122, 1555081692, 1996064986,
   2554220882, 2821834349, 2952996808, 3210313671, 3336571891, 3584528711,
   113926993, 338241895, 666307205, 773529912, 1294757372, 1396182291,
   1695183700, 1986661051, 2177026350, 2456956037, 2730485921, 2820302411,
   3259730800, 3345764771, 3516065817, 3600352804, 4094571909, 275423344,
   430227734, 506948616, 659060556, 883997877, 958139571, 1322822218,
   1537002063, 1747873779, 1955562222, 2024104815, 2227730452, 2361852424,
   2428436474, 2756734187, 3204031479, 3329325298]

structure Hash8 where
  a : Nat
  b : Nat
  c : Nat
  d : Nat
  e : Nat
  f : Nat
  g : Nat
  hh : Nat

/-- The eight SHA-256 initial hash values, in decimal. -/
def initH : Hash8 :=
  ⟨1779033703, 3144134277, 1013904242, 2773480762,
   1359893119, 2600822924, 528734635, 1541459225⟩

def shaStep (st : Hash8) (kw : Nat × Nat) : Hash8 :=
  let t1 := (st.hh + sumE st.e + chf st.e st.f st.g + kw.1 + kw.2) % pow32
  let t2 := (sumA st.a + majf st.a st.b st.c) % pow32
  ⟨(t1 + t2) % pow32, st.a, st.b, st.c, (st.d + t1) % pow32, st.e, st.f, st.g⟩

/-- One round of the message-schedule extension; the accumulator is kept in
reversed order so that the last 16 words are at the head. -/
def extendW : Nat → List Nat → List Nat
  | 0, acc => acc
  | n + 1, acc =>
    let w := (sigHi (acc.getD 1 0) + acc.getD 6 0 + sigLo (acc.getD 14 0)
              + acc.getD 15 0) % pow32
    extendW n (w :: acc)

def schedule (w16 : List Nat) : List Nat := (extendW 48 w16.reverse).reverse

def bytesToWords : List Nat → List Nat
  | b0 :: b1 :: b2 :: b3 :: rest =>
    ((b0 <<< 24) ||| (b1 <<< 16) ||| (b2 <<< 8) ||| b3) :: bytesToWords rest
  | _ => []

def compress (st : Hash8) (chunkBytes : List Nat) : Hash8 :=
  let ws := schedule (bytesToWords chunkBytes)
  let fin := (sha256K.zip ws).foldl shaStep st
  ⟨(st.a + fin.a) % pow32, (st.b + fin.b) % pow32, (st.c + fin.c) % pow32,
   (st.d + fin.d) % pow32, (st.e + fin.e) % pow32, (st.f + fin.f) % pow32,
   (st.g + fin.g) % pow32, (st.hh + fin.hh) % pow32⟩

def chunksOf64 : Nat → List Nat → List (List Nat)
  | 0, _ => []
  | _ + 1, [] => []
  | fuel + 1, l => l.take 64 :: chunksOf64 fuel (l.drop 64)

def lenBytes (n : Nat) : List Nat :=
  [(n >>> 56) &&& 255, (n >>> 48) &&& 255, (n >>> 40) &&& 255, (n >>> 32) &&& 255,
   (n >>> 24) &&& 255, (n >>> 16) &&& 255, (n >>> 8) &&& 255, n &&& 255]

def padBytes (msg : List Nat) : List Nat :=
  let len := msg.length
  let zeros := (120 - ((len + 1) % 64)) % 64
  msg ++ 128 :: List.replicate zeros 0 ++ lenBytes (len * 8)

def hexDigit (n : Nat) : Char :=
  Char.ofNat (if n < 10 then 48 + n else 87 + n)

def wordToHex (w : Nat) : List Char :=
  [hexDigit ((w >>> 28) &&& 15), hexDigit ((w >>> 24) &&& 15),
   hexDigit ((w >>> 20) &&& 15), hexDigit ((w >>> 16) &&& 15),
   hexDigit ((w >>> 12) &&& 15), hexDigit ((w >>> 8) &&& 15),
   hexDigit ((w >>> 4) &&& 15), hexDigit (w &&& 15)]

def sha256 (s : String) : String :=
  let bytes := padBytes (s.data.map Char.toNat)
  let st := (chunksOf64 (bytes.length + 1) bytes).foldl compress initH
  String.mk (wordToHex st.a ++ wordToHex st.b ++ wordToHex st.c ++ wordToHex st.d
    ++ wordToHex st.e ++ wordToHex st.f ++ wordToHex st.g ++ wordToHex st.hh)

/-- NIST test vector: the SHA-256 digest of the empty string. -/
theorem sha256_empty :
    sha256 "" = "e3b0c44298fc1c149afbf4c8996fb92427ae41e4649b934ca495991b7852b855" := by
  decide

/-- NIST test vector: the SHA-256 digest of the string abc. -/
theorem sha256_abc :
    sha256 "abc" = "ba7816bf8f01cfea414140de5dae2223b00361a396177a9cb410ff61f20015ad" := by
  decide

/-! ## A model of the JSON values handled by the node

The repository only ever stores flat JSON objects whose values are strings or
integers (sensor payloads and the genesis payload), so the model covers that
subset: nested objects, arrays, fractions, booleans and null are outside the
parser's domain (it answers none on them, a conservative under-approximation
of JSON.parse). -/

inductive JScalar where
  | str (s : String)
  | num (n : Int)
deriving DecidableEq

inductive Json where
  | scalar (v : JScalar)
  | obj (fields : List (String × JScalar))
deriving DecidableEq

def quoteChar : Char := Char.ofNat 34

def lbraceChar : Char := Char.ofNat 123

def rbraceChar : Char := Char.ofNat 125

def backslashChar : Char := Char.ofNat 92

def quoteStr (s : String) : String := String.mk (quoteChar :: s.data ++ [quoteChar])

def scalarStringify : JScalar → String
  | .str s => quoteStr s
  | .num n => toString n

def fieldsStringify : List (String × JScalar) → String
  | [] => ""
  | [(k, v)] => quoteStr k ++ ":" ++ scalarStringify v
  | (k, v) :: rest => quoteStr k ++ ":" ++ scalarStringify v ++ "," ++ fieldsStringify rest

/-- Model of JSON.stringify on the values above (no escaping is performed:
the repository's keys and string values never contain quotes, braces or
backslashes). -/
def jsonStringify : Json → String
  | .scalar v => scalarStringify v
  | .obj fields => "\x7b" ++ fieldsStringify fields ++ "\x7d"

def isDigitChar (c : Char) : Bool := 48 ≤ c.toNat && c.toNat ≤ 57

/-- Reads a quoted-string body up to the closing quote (no escapes). -/
def parseStrBody : List Char → Option (List Char × List Char)
  | [] => none
  | c :: rest =>
    if c = quoteChar then some ([], rest)
    else if c = backslashChar then none
    else match parseStrBody rest with
      | some (body, after) => some (c :: body, after)
      | none => none

def takeDigits : List Char → (List Char × List Char)
  | [] => ([], [])
  | c :: rest =>
    if isDigitChar c then
      let (ds, after) := takeDigits rest
      (c :: ds, after)
    else ([], c :: rest)

def digitsToNat (ds : List Char) : Nat := ds.foldl (fun acc c => acc * 10 + (c.toNat - 48)) 0

/-- Reads a JSON integer (optional minus sign, no leading zeros, no
fraction/exponent). -/
def parseNum : List Char → Option (Int × List Char)
  | [] => none
  | c :: rest =>
    if c = '-' then
      match takeDigits rest with
      | ([], _) => none
      | (ds, after) =>
        if ds.length > 1 && ds.headD ' ' = '0' then none
        else some (-(digitsToNat ds : Int), after)
    else
      match takeDigits (c :: rest) with
      | ([], _) => none
      | (ds, after) =>
        if ds.length > 1 && ds.headD ' ' = '0' then none
        else some ((digitsToNat ds : Int), after)

def parseScalar (cs : List Char) : Option (JScalar × List Char) :=
  match cs with
  | [] => none
  | c :: rest =>
    if c = quoteChar then
      match parseStrBody rest with
      | some (body, after) => some (.str (String.mk body), after)
      | none => none
    else
      match parseNum (c :: rest) with
      | some (n, after) => some (.num n, after)
      | none => none

def parseFields : Nat → List Char → Option (List (String × JScalar) × List Char)
  | 0, _ => none
  | fuel + 1, cs =>
    match cs with
    | c :: rest =>
      if c = quoteChar then
        match parseStrBody rest with
        | none => none
        | some (keyBody, afterKey) =>
          match afterKey with
          | ':' :: afterColon =>
            match parseScalar afterColon with
            | none => none
            | some (v, afterVal) =>
              match afterVal with
              | ',' :: afterComma =>
                match parseFields fuel afterComma with
                | none => none
                | some (fields, afterAll) =>
                  some ((String.mk keyBody, v) :: fields, afterAll)
              | d :: afterBrace =>
                if d = rbraceChar then some ([(String.mk keyBody, v)], afterBrace)
                else none
              | [] => none
          | _ => none
      else none
    | [] => none

def parseValue (cs : List Char) : Option (Json × List Char) :=
  match cs with
  | [] => none
  | c :: rest =>
    if c = lbraceChar then
      match rest with
      | d :: afterBrace =>
        if d = rbraceChar then some (.obj [], afterBrace)
        else match parseFields (rest.length + 1) rest with
          | some (fields, after) => some (.obj fields, after)
          | none => none
      | [] => none
    else
      match parseScalar cs with
      | some (v, after) => some (.scalar v, after)
      | none => none

/-- Model of JSON.parse on the repository's value subset; none models a
thrown SyntaxError. -/
def parseJson (s : String) : Option Json :=
  match parseValue s.data with
  | some (v, []) => some v
  | _ => none

/-! ## Blocks (src/blockchain.js, wire/storage form)

A block as it is stored in the sqlite blocks table and as it travels on the
wire: the data field holds the JSON text of the payload (blockchain.js keeps
the parsed object in memory but always hashes and stores
JSON.stringify(data), and the wire format carries the string). -/

structure Block where
  index : Nat
  timestamp : String
  data : String
  previousHash : String
  hash : String
deriving DecidableEq

/-- The hash recipe used uniformly by the repository on wire/stored blocks:
SHA256(String(index) + timestamp + data + previousHash) with textual
concatenation (consensus.js validateChain, grpc-server.js, sync.js). -/
def wireHash (b : Block) : String :=
  sha256 (toString b.index ++ b.timestamp ++ b.data ++ b.previousHash)

/-- Model of the Block constructor followed by _insertBlock's stringify:
new Block(index, timestamp, data, previousHash) computes
hash = SHA256(index + timestamp + JSON.stringify(data) + previousHash). -/
def newBlockFromData (index : Nat) (timestamp : String) (payload : Json)
    (previousHash : String) : Block :=
  { index := index, timestamp := timestamp, data := jsonStringify payload,
    previousHash := previousHash,
    hash := sha256 (toString index ++ timestamp ++ jsonStringify payload ++ previousHash) }

def genesisData : Json := .obj [("message", .str "Genesis Block")]

def genesisTimestamp : String := "2023-01-01T00:00:00.000Z"

/-- Blockchain.createGenesisBlock: fixed timestamp and payload. -/
def genesisBlock : Block := newBlockFromData 0 genesisTimestamp genesisData "0"

/-- Cross-check of the whole hashing pipeline on the genesis block (value
computed independently with another SHA-256 implementation). -/
theorem genesisBlock_hash_value :
    genesisBlock.hash = "073fb393092da5de57724118acbf9c2f44546dca65ec11a80bc989a9a4b4e1ba" := by
  decide

/-! ## Consensus (src/consensus.js) -/

/-- The per-block loop of ConsensusManager.validateChain: structure checks
are enforced by the Block type; the index must equal the position, the hash
must match the recipe, and each non-genesis block must link to the previous
block's hash. -/
def validateFrom : Nat → Option String → List Block → Bool
  | _, _, [] => true
  | i, prev, b :: rest =>
    b.index == i && b.hash == wireHash b &&
    (match prev with
     | none => true
     | some ph => b.previousHash == ph) &&
    validateFrom (i + 1) (some b.hash) rest

/-- ConsensusManager.validateChain. -/
def validateChain (chain : List Block) : Bool :=
  !chain.isEmpty && validateFrom 0 none chain

/-- ConsensusManager.calculateChainHash: the chain fingerprint, SHA-256 of
the concatenation of the block hashes in order. -/
def calculateChainHash (chain : List Block) : String :=
  if chain.isEmpty then "" else sha256 (String.join (chain.map (fun b => b.hash)))

/-- JavaScript string comparison (code-unit lexicographic); all compared
strings here are ASCII hex digests. -/
def ltChars : List Char → List Char → Bool
  | [], [] => false
  | [], _ :: _ => true
  | _ :: _, [] => false
  | a :: as, b :: bs =>
    if a.toNat < b.toNat then true
    else if b.toNat < a.toNat then false
    else ltChars as bs

def jsStrLt (a b : String) : Bool := ltChars a.data b.data

/-- Insertion step of a stable descending sort by a Nat key: a new element
goes after all existing elements with a greater-or-equal key, which is the
order Array.prototype.sort (stable since ES2019) produces for the comparator
(b.length - a.length). -/
def insertKeyDesc {α : Type} (key : α → Nat) (x : α) : List α → List α
  | [] => [x]
  | y :: ys => if key x ≤ key y then y :: insertKeyDesc key x ys else x :: y :: ys

def sortKeyDesc {α : Type} (key : α → Nat) (l : List α) : List α :=
  l.foldl (fun acc x => insertKeyDesc key x acc) []

/-- The tail of resolveChainConflict after the sort: longest === localChain
keeps local (the Bool tag models reference equality with the local array);
a gap greater than 2 over the runner-up adopts; an equal-length tie with a
greater fingerprint adopts; otherwise any chain longer than local is
adopted; otherwise local is kept. -/
def resolveAfterSort (localChain : List Block) (longest : Bool × List Block)
    (rest : List (Bool × List Block)) : List Block :=
  if longest.1 then localChain
  else
    match rest with
    | second :: _ =>
      if second.2.length + 2 < longest.2.length then longest.2
      else if longest.2.length == second.2.length &&
          jsStrLt (calculateChainHash second.2) (calculateChainHash longest.2) then
        longest.2
      else if localChain.length < longest.2.length then longest.2
      else localChain
    | [] =>
      if localChain.length < longest.2.length then longest.2 else localChain

/-- resolveChainConflict once the valid chains have been collected: sort by
length descending (stably, as Array.prototype.sort does for the comparator
(b.length - a.length)) and dispatch on the longest chain. -/
def resolveSorted (localChain : List Block)
    (validChains : List (Bool × List Block)) : List Block :=
  if validChains.isEmpty then localChain
  else
    match sortKeyDesc (fun tc => tc.2.length) validChains with
    | [] => localChain
    | longest :: rest => resolveAfterSort localChain longest rest

/-- ConsensusManager.resolveChainConflict on well-typed inputs (the null and
non-array guards of the source are vacuous once the arguments are typed
lists).  The Bool tag models JavaScript reference equality with the
localChain argument (longestChain === localChain): only the entry that is
the local array itself carries true.  The staging into resolveSorted and
resolveAfterSort follows the statement order of the source function. -/
def resolveChainConflict (localChain : List Block)
    (remoteChains : List (List Block)) : List Block :=
  let validRemoteChains := remoteChains.filter (fun c => !c.isEmpty)
  if validRemoteChains.isEmpty then localChain
  else
    resolveSorted localChain
      (((true, localChain) :: validRemoteChains.map (fun c => (false, c))).filter
        (fun tc => validateChain tc.2))

/-- The first chain of maximal length in a list (earlier entries win ties). -/
def firstMaxByLen : List (List Block) → List Block
  | [] => []
  | c :: cs => cs.foldl (fun best d => if best.length < d.length then d else best) c

/-- The chain resolveChainConflict actually returns when the local chain is
valid: the first chain of maximal length in the order
localChain, remoteChains[0], remoteChains[1], .... -/
def firstLongestValid (localChain : List Block) (remoteChains : List (List Block)) :
    List Block :=
  firstMaxByLen (localChain :: remoteChains.filter (fun c => validateChain c))

/-! ### Properties of the stable descending sort and of first-maximum folds -/

def foldPick {α : Type} (key : α → Nat) (c : α) (cs : List α) : α :=
  cs.foldl (fun best d => if key best < key d then d else best) c

theorem foldPick_nil {α : Type} (key : α → Nat) (c : α) : foldPick key c [] = c := rfl

theorem foldPick_cons {α : Type} (key : α → Nat) (c x : α) (xs : List α) :
    foldPick key c (x :: xs) = foldPick key (if key c < key x then x else c) xs := rfl

theorem firstMaxByLen_cons (c : List Block) (cs : List (List Block)) :
    firstMaxByLen (c :: cs) = foldPick (fun l => l.length) c cs := rfl

theorem foldPick_key_le {α : Type} (key : α → Nat) (cs : List α) :
    ∀ c, key c ≤ key (foldPick key c cs) := by
  induction cs with
  | nil => intro c; exact Nat.le_refl _
  | cons x xs ih =>
    intro c
    rw [foldPick_cons]
    by_cases h : key c < key x
    · rw [if_pos h]; exact Nat.le_of_lt (Nat.lt_of_lt_of_le h (ih x))
    · rw [if_neg h]; exact ih c

theorem foldPick_mem_le {α : Type} (key : α → Nat) (cs : List α) :
    ∀ c x, x ∈ cs → key x ≤ key (foldPick key c cs) := by
  induction cs with
  | nil => intro c x hx; cases hx
  | cons y ys ih =>
    intro c x hx
    rw [foldPick_cons]
    rcases List.mem_cons.mp hx with rfl | hx
    · by_cases h : key c < key x
      · rw [if_pos h]; exact foldPick_key_le key ys x
      · rw [if_neg h]
        exact Nat.le_trans (Nat.le_of_not_lt h) (foldPick_key_le key ys c)
    · exact ih _ x hx

theorem foldPick_self_or_mem {α : Type} (key : α → Nat) (cs : List α) :
    ∀ c, foldPick key c cs = c ∨ foldPick key c cs ∈ cs := by
  induction cs with
  | nil => intro c; exact Or.inl rfl
  | cons x xs ih =>
    intro c
    rw [foldPick_cons]
    by_cases h : key c < key x
    · rw [if_pos h]
      rcases ih x with h2 | h2
      · exact Or.inr (by rw [h2]; exact List.mem_cons_self x xs)
      · exact Or.inr (List.mem_cons_of_mem x h2)
    · rw [if_neg h]
      rcases ih c with h2 | h2
      · exact Or.inl h2
      · exact Or.inr (List.mem_cons_of_mem x h2)

theorem foldPick_self_or_lt {α : Type} (key : α → Nat) (cs : List α) :
    ∀ c, foldPick key c cs = c ∨ key c < key (foldPick key c cs) := by
  induction cs with
  | nil => intro c; exact Or.inl rfl
  | cons x xs ih =>
    intro c
    rw [foldPick_cons]
    by_cases h : key c < key x
    · rw [if_pos h]
      exact Or.inr (Nat.lt_of_lt_of_le h (foldPick_key_le key xs x))
    · rw [if_neg h]; exact ih c

theorem foldPick_snd (cs : List (Bool × List Block)) :
    ∀ c : Bool × List Block,
      (foldPick (fun tc => tc.2.length) c cs).2 =
      foldPick (fun l => l.length) c.2 (cs.map (fun tc => tc.2)) := by
  induction cs with
  | nil => intro c; rfl
  | cons x xs ih =>
    intro c
    rw [List.map_cons, foldPick_cons, foldPick_cons]
    by_cases h : c.2.length < x.2.length
    · rw [if_pos h, if_pos h]; exact ih x
    · rw [if_neg h, if_neg h]; exact ih c

theorem insertKeyDesc_mem {α : Type} (key : α → Nat) (x : α) :
    ∀ (l : List α) (y : α), y ∈ insertKeyDesc key x l → y = x ∨ y ∈ l := by
  intro l
  induction l with
  | nil =>
    intro y hy
    simp only [insertKeyDesc] at hy
    exact Or.inl (List.mem_singleton.mp hy)
  | cons z zs ih =>
    intro y hy
    simp only [insertKeyDesc] at hy
    by_cases h : key x ≤ key z
    · rw [if_pos h] at hy
      rcases List.mem_cons.mp hy with rfl | hy
      · exact Or.inr (List.mem_cons_self _ _)
      · rcases ih y hy with h2 | h2
        · exact Or.inl h2
        · exact Or.inr (List.mem_cons_of_mem z h2)
    · rw [if_neg h] at hy
      rcases List.mem_cons.mp hy with rfl | hy
      · exact Or.inl rfl
      · exact Or.inr hy

theorem sortFold_mem {α : Type} (key : α → Nat) :
    ∀ (l acc : List α) (x : α),
      x ∈ l.foldl (fun acc x => insertKeyDesc key x acc) acc → x ∈ acc ∨ x ∈ l := by
  intro l
  induction l with
  | nil => intro acc x hx; exact Or.inl hx
  | cons z zs ih =>
    intro acc x hx
    rw [List.foldl_cons] at hx
    rcases ih (insertKeyDesc key z acc) x hx with h2 | h2
    · rcases insertKeyDesc_mem key z acc x h2 with rfl | h3
      · exact Or.inr (List.mem_cons_self _ _)
      · exact Or.inl h3
    · exact Or.inr (List.mem_cons_of_mem z h2)

theorem sortKeyDesc_mem {α : Type} (key : α → Nat) (l : List α) (x : α)
    (h : x ∈ sortKeyDesc key l) : x ∈ l := by
  rcases sortFold_mem key l [] x h with h2 | h2
  · cases h2
  · exact h2

theorem sortFold_head {α : Type} (key : α → Nat) :
    ∀ (l : List α) (y : α) (ys : List α),
      (l.foldl (fun acc x => insertKeyDesc key x acc) (y :: ys)).head? =
      some (foldPick key y l) := by
  intro l
  induction l with
  | nil => intro y ys; rfl
  | cons x xs ih =>
    intro y ys
    rw [List.foldl_cons]
    by_cases h : key x ≤ key y
    · have hins : insertKeyDesc key x (y :: ys) = y :: insertKeyDesc key x ys := by
        simp only [insertKeyDesc, if_pos h]
      rw [hins, ih y (insertKeyDesc key x ys), foldPick_cons,
        if_neg (Nat.not_lt.mpr h)]
    · have hins : insertKeyDesc key x (y :: ys) = x :: y :: ys := by
        simp only [insertKeyDesc, if_neg h]
      rw [hins, ih x (y :: ys), foldPick_cons, if_pos (Nat.lt_of_not_le h)]

theorem sortKeyDesc_head {α : Type} (key : α → Nat) (c : α) (cs : List α) :
    (sortKeyDesc key (c :: cs)).head? = some (foldPick key c cs) := by
  show ((c :: cs).foldl (fun acc x => insertKeyDesc key x acc) []).head? = _
  rw [List.foldl_cons]
  exact sortFold_head key cs c []

theorem filter_tag_map (vr : List (List Block)) :
    (vr.map (fun c => ((false : Bool), c))).filter (fun tc => validateChain tc.2) =
    (vr.filter (fun c => validateChain c)).map (fun c => ((false : Bool), c)) := by
  induction vr with
  | nil => rfl
  | cons c cs ih =>
    by_cases hc : validateChain c = true
    · simp only [List.map_cons, List.filter_cons, hc, if_true, ih]
    · simp only [List.map_cons, List.filter_cons, hc, if_false, ih,
        Bool.false_eq_true]

theorem filter_nonempty_validate (remoteChains : List (List Block)) :
    (remoteChains.filter (fun c => !c.isEmpty)).filter (fun c => validateChain c) =
    remoteChains.filter (fun c => validateChain c) := by
  induction remoteChains with
  | nil => rfl
  | cons c cs ih =>
    by_cases hne : (!c.isEmpty) = true
    · by_cases hv : validateChain c = true
      · simp only [List.filter_cons, hne, hv, if_true, ih]
      · simp only [List.filter_cons, hne, hv, if_true, if_false, ih,
          Bool.false_eq_true]
    · have hcnil : c = [] := by
        cases c with
        | nil => rfl
        | cons a as => simp at hne
      subst hcnil
      have hv : validateChain ([] : List Block) = false := rfl
      simp only [List.filter_cons, hne, hv, if_false, ih, Bool.false_eq_true]

theorem resolveAfterSort_nil (localChain : List Block) (longest : Bool × List Block) :
    resolveAfterSort localChain longest [] =
    if longest.1 then localChain
    else if localChain.length < longest.2.length then longest.2 else localChain := rfl

theorem resolveAfterSort_cons (localChain : List Block) (longest second : Bool × List Block)
    (rest2 : List (Bool × List Block)) :
    resolveAfterSort localChain longest (second :: rest2) =
    if longest.1 then localChain
    else if second.2.length + 2 < longest.2.length then longest.2
    else if longest.2.length == second.2.length &&
        jsStrLt (calculateChainHash second.2) (calculateChainHash longest.2) then longest.2
    else if localChain.length < longest.2.length then longest.2
    else localChain := rfl

/-- Every branch of the post-sort dispatch returns the head of the sorted
list, provided the head is the local chain whenever it carries the local
tag and is strictly longer than local otherwise. -/
theorem resolveAfterSort_result (localChain : List Block) (longest : Bool × List Block)
    (rest : List (Bool × List Block))
    (htag : longest.1 = true → longest.2 = localChain)
    (hlen : longest.1 = false → localChain.length < longest.2.length) :
    resolveAfterSort localChain longest rest = longest.2 := by
  cases rest with
  | nil =>
    rw [resolveAfterSort_nil]
    by_cases ht : longest.1 = true
    · rw [if_pos ht]; exact (htag ht).symm
    · have ht' : longest.1 = false := by revert ht; cases longest.1 <;> simp
      rw [if_neg ht, if_pos (hlen ht')]
  | cons second rest2 =>
    rw [resolveAfterSort_cons]
    by_cases ht : longest.1 = true
    · rw [if_pos ht]; exact (htag ht).symm
    · have ht' : longest.1 = false := by revert ht; cases longest.1 <;> simp
      rw [if_neg ht]
      by_cases h1 : second.2.length + 2 < longest.2.length
      · rw [if_pos h1]
      · rw [if_neg h1]
        by_cases h2 : (longest.2.length == second.2.length &&
            jsStrLt (calculateChainHash second.2) (calculateChainHash longest.2)) = true
        · rw [if_pos h2]
        · rw [if_neg h2, if_pos (hlen ht')]

/-- What resolveChainConflict computes whenever the local chain passes
validateChain: the first chain of maximal length in the candidate order
(local first, then the remotes in list order).  In particular the
fingerprint tie-break never overrides this choice. -/
theorem resolve_eq_firstLongest (localChain : List Block)
    (remoteChains : List (List Block)) (h : validateChain localChain = true) :
    resolveChainConflict localChain remoteChains =
    firstLongestValid localChain remoteChains := by
  unfold resolveChainConflict
  by_cases hemp : ((remoteChains.filter (fun c => !c.isEmpty)).isEmpty) = true
  · rw [if_pos hemp]
    have hvr : remoteChains.filter (fun c => !c.isEmpty) = [] := by
      cases hc : remoteChains.filter (fun c => !c.isEmpty) with
      | nil => rfl
      | cons a as => rw [hc] at hemp; simp at hemp
    have hnil : remoteChains.filter (fun c => validateChain c) = [] := by
      rw [← filter_nonempty_validate, hvr]; rfl
    rw [firstLongestValid, hnil]
    rfl
  · rw [if_neg hemp]
    have hfilter : (((true, localChain) ::
        (remoteChains.filter (fun c => !c.isEmpty)).map (fun c => (false, c))).filter
          (fun tc => validateChain tc.2)) =
        (true, localChain) ::
          (remoteChains.filter (fun c => validateChain c)).map
            (fun c => ((false : Bool), c)) := by
      rw [List.filter_cons]
      have hcond : (fun tc : Bool × List Block => validateChain tc.2) (true, localChain) = true := h
      rw [if_pos hcond, filter_tag_map, filter_nonempty_validate]
    rw [hfilter]
    unfold resolveSorted
    rw [if_neg (by simp)]
    cases hsort : sortKeyDesc (fun tc => tc.2.length)
        ((true, localChain) ::
          (remoteChains.filter (fun c => validateChain c)).map
            (fun c => ((false : Bool), c))) with
    | nil =>
      exfalso
      have hh := sortKeyDesc_head (fun tc : Bool × List Block => tc.2.length)
        (true, localChain)
        ((remoteChains.filter (fun c => validateChain c)).map (fun c => ((false : Bool), c)))
      rw [hsort] at hh
      simp at hh
    | cons longest rest =>
      have hh := sortKeyDesc_head (fun tc : Bool × List Block => tc.2.length)
        (true, localChain)
        ((remoteChains.filter (fun c => validateChain c)).map (fun c => ((false : Bool), c)))
      rw [hsort] at hh
      have hlongest : longest = foldPick (fun tc : Bool × List Block => tc.2.length)
          (true, localChain)
          ((remoteChains.filter (fun c => validateChain c)).map
            (fun c => ((false : Bool), c))) := by
        simpa using hh
      have hRHS : firstLongestValid localChain remoteChains =
          (foldPick (fun tc : Bool × List Block => tc.2.length) (true, localChain)
            ((remoteChains.filter (fun c => validateChain c)).map
              (fun c => ((false : Bool), c)))).2 := by
        rw [firstLongestValid, firstMaxByLen_cons, foldPick_snd, List.map_map]
        simp
      have htags : ∀ tc ∈ (remoteChains.filter (fun c => validateChain c)).map
          (fun c => ((false : Bool), c)), tc.1 = false := by
        intro tc htc
        rcases List.mem_map.mp htc with ⟨c, _, rfl⟩
        rfl
      have hFcases := foldPick_self_or_mem (fun tc : Bool × List Block => tc.2.length)
        ((remoteChains.filter (fun c => validateChain c)).map (fun c => ((false : Bool), c)))
        (true, localChain)
      have hFlt := foldPick_self_or_lt (fun tc : Bool × List Block => tc.2.length)
        ((remoteChains.filter (fun c => validateChain c)).map (fun c => ((false : Bool), c)))
        (true, localChain)
      subst hlongest
      rw [hRHS]
      apply resolveAfterSort_result
      · intro htrue
        rcases hFcases with h2 | h2
        · rw [h2]
        · exact absurd (htags _ h2) (by rw [htrue]; simp)
      · intro hfalse
        rcases hFlt with h2 | h2
        · exfalso; rw [h2] at hfalse; simp at hfalse
        · exact h2

/-! ### Concrete blocks used in consensus counterexamples and witnesses -/

def cexA : Block :=
  { index := 0, timestamp := "ta", data := "da", previousHash := "0",
    hash := sha256 "0tada0" }

def cexB : Block :=
  { index := 0, timestamp := "tb", data := "db", previousHash := "0",
    hash := sha256 "0tbdb0" }

def p0 : Block :=
  { index := 0, timestamp := "t0", data := "d0", previousHash := "0",
    hash := sha256 "0t0d00" }

def p1 : Block :=
  { index := 1, timestamp := "t1", data := "d1", previousHash := sha256 "0t0d00",
    hash := sha256 ("1t1d1" ++ sha256 "0t0d00") }

/-- Claim C1 (counterexample): two distinct validated chains of equal maximal
length, where the remote chain's fingerprint (SHA-256 of the concatenated
block hashes) is lexicographically greater than the local chain's, yet
resolveChainConflict returns the local chain, not the fingerprint winner:
once the stable length sort puts the local array first, the
longestChain === localChain check returns local before any fingerprint is
compared. -/
theorem C1_counterexample :
    validateChain [cexA] = true ∧ validateChain [cexB] = true ∧
    ([cexA] : List Block).length = ([cexB] : List Block).length ∧
    jsStrLt (calculateChainHash [cexA]) (calculateChainHash [cexB]) = true ∧
    resolveChainConflict [cexA] [[cexB]] = [cexA] ∧
    ([cexA] : List Block) ≠ [cexB] := by
  refine ⟨by decide, by decide, rfl, by decide, by decide, by decide⟩

/-- Claim C1 (corrected): when the local chain is valid, resolveChainConflict
returns the first chain of maximal length in the order local, remotes...;
the fingerprint tie-break never overrides that choice (in particular, a tie
involving the local chain is resolved in favour of the local chain
regardless of fingerprints, and a tie between two remotes is resolved by
list position, not by fingerprint). -/
theorem C1_resolve_is_first_longest (localChain : List Block)
    (remoteChains : List (List Block)) (h : validateChain localChain = true) :
    resolveChainConflict localChain remoteChains =
    firstLongestValid localChain remoteChains :=
  resolve_eq_firstLongest localChain remoteChains h

/-- Witness for C1_resolve_is_first_longest at a concrete candidate set. -/
theorem C1_resolve_is_first_longest_witness :
    validateChain [cexA] = true ∧
    resolveChainConflict [cexA] [[cexB]] = firstLongestValid [cexA] [[cexB]] :=
  ⟨by decide, C1_resolve_is_first_longest [cexA] [[cexB]] (by decide)⟩

/-- Claim C5 (counterexample): a validated candidate set in which the longest
chain is a remote chain strictly longer than the second-longest (the local
chain) by exactly 1, which is not more than 2: the claim says the local
chain is kept, but resolveChainConflict adopts the remote chain through its
final longestChain.length > localChain.length branch. -/
theorem C5_counterexample :
    validateChain [p0] = true ∧ validateChain [p0, p1] = true ∧
    ([p0, p1] : List Block).length ≤ ([p0] : List Block).length + 2 ∧
    ([p0, p1] : List Block).length ≠ ([p0] : List Block).length ∧
    resolveChainConflict [p0] [[p0, p1]] = [p0, p1] ∧
    ([p0, p1] : List Block) ≠ [p0] := by
  refine ⟨by decide, by decide, by decide, by decide, by decide, by decide⟩

/-- Claim C5 (corrected): whenever any valid remote chain is strictly longer
than the valid local chain - even by only 1 or 2 blocks - the consensus
routine does not keep the local chain: the chain it returns is strictly
longer than the local chain.  The greater-by-more-than-2 condition of the
source is not required for adoption. -/
theorem C5_strictly_longer_remote_is_adopted (localChain : List Block)
    (remoteChains : List (List Block)) (r : List Block)
    (hl : validateChain localChain = true) (hr : validateChain r = true)
    (hmem : r ∈ remoteChains) (hlen : localChain.length < r.length) :
    localChain.length < (resolveChainConflict localChain remoteChains).length := by
  rw [resolve_eq_firstLongest localChain remoteChains hl]
  rw [firstLongestValid, firstMaxByLen_cons]
  have hrf : r ∈ remoteChains.filter (fun c => validateChain c) :=
    List.mem_filter.mpr ⟨hmem, hr⟩
  exact Nat.lt_of_lt_of_le hlen
    (foldPick_mem_le (fun l => l.length) _ localChain r hrf)

/-- Witness for C5_strictly_longer_remote_is_adopted at a concrete set. -/
theorem C5_strictly_longer_remote_is_adopted_witness :
    ([p0] : List Block).length < (resolveChainConflict [p0] [[p0, p1]]).length :=
  C5_strictly_longer_remote_is_adopted [p0] [[p0, p1]] [p0, p1]
    (by decide) (by decide) (by decide) (by decide)

/-- Claim C10 (confirmed): for every local chain and every list of remote
chains, resolveChainConflict returns either the local chain itself or one of
the remote chains; it never constructs a merged, truncated or otherwise new
chain. -/
theorem C10_resolve_returns_candidate (localChain : List Block)
    (remoteChains : List (List Block)) :
    resolveChainConflict localChain remoteChains = localChain ∨
    resolveChainConflict localChain remoteChains ∈ remoteChains := by
  unfold resolveChainConflict
  by_cases hemp : ((remoteChains.filter (fun c => !c.isEmpty)).isEmpty) = true
  · rw [if_pos hemp]; exact Or.inl rfl
  · rw [if_neg hemp]
    unfold resolveSorted
    by_cases he2 : ((((true, localChain) ::
        (remoteChains.filter (fun c => !c.isEmpty)).map (fun c => (false, c))).filter
          (fun tc => validateChain tc.2)).isEmpty) = true
    · rw [if_pos he2]; exact Or.inl rfl
    · rw [if_neg he2]
      cases hsort : sortKeyDesc (fun tc => tc.2.length)
          (((true, localChain) ::
            (remoteChains.filter (fun c => !c.isEmpty)).map (fun c => (false, c))).filter
              (fun tc => validateChain tc.2)) with
      | nil => exact Or.inl rfl
      | cons longest rest =>
        show resolveAfterSort localChain longest rest = localChain ∨
          resolveAfterSort localChain longest rest ∈ remoteChains
        have hmem : longest ∈ (((true, localChain) ::
            (remoteChains.filter (fun c => !c.isEmpty)).map (fun c => (false, c))).filter
              (fun tc => validateChain tc.2)) := by
          apply sortKeyDesc_mem (fun tc : Bool × List Block => tc.2.length)
          rw [hsort]
          exact List.mem_cons_self _ _
        have hmem2 : longest ∈ ((true, localChain) ::
            (remoteChains.filter (fun c => !c.isEmpty)).map (fun c => (false, c))) :=
          List.mem_of_mem_filter hmem
        have hret : resolveAfterSort localChain longest rest = localChain ∨
            resolveAfterSort localChain longest rest = longest.2 := by
          cases rest with
          | nil =>
            rw [resolveAfterSort_nil]
            by_cases t : longest.1 = true
            · rw [if_pos t]; exact Or.inl rfl
            · rw [if_neg t]
              by_cases hl : localChain.length < longest.2.length
              · rw [if_pos hl]; exact Or.inr rfl
              · rw [if_neg hl]; exact Or.inl rfl
          | cons second rest2 =>
            rw [resolveAfterSort_cons]
            by_cases t : longest.1 = true
            · rw [if_pos t]; exact Or.inl rfl
            · rw [if_neg t]
              by_cases h1 : second.2.length + 2 < longest.2.length
              · rw [if_pos h1]; exact Or.inr rfl
              · rw [if_neg h1]
                by_cases h2 : (longest.2.length == second.2.length &&
                    jsStrLt (calculateChainHash second.2)
                      (calculateChainHash longest.2)) = true
                · rw [if_pos h2]; exact Or.inr rfl
                · rw [if_neg h2]
                  by_cases h3 : localChain.length < longest.2.length
                  · rw [if_pos h3]; exact Or.inr rfl
                  · rw [if_neg h3]; exact Or.inl rfl
        rcases hret with hret | hret
        · rw [hret]; exact Or.inl rfl
        · rw [hret]
          rcases List.mem_cons.mp hmem2 with h4 | h4
          · exact Or.inl (by rw [h4])
          · rcases List.mem_map.mp h4 with ⟨c, hc, rfl⟩
            exact Or.inr (List.mem_of_mem_filter hc)

/-! ## Merkle tree (src/merkle-tree.js) -/

inductive Side where
  | left
  | right
deriving DecidableEq

structure ProofElem where
  hash : String
  position : Side
deriving DecidableEq

/-- MerkleTree.buildNextLevel: pair consecutive nodes, self-pairing a lone
last node. -/
def buildNextLevel : List String → List String
  | [] => []
  | [a] => [sha256 (a ++ a)]
  | a :: b :: rest => sha256 (a ++ b) :: buildNextLevel rest

/-- MerkleTree.buildTreeFromLeaves, with a fuel argument bounding the number
of levels (the leaf count is a bound, since each level at least halves); on
the empty list the source would recurse forever, which buildTree prevents by
guarding empty input, so the empty-list result is never observed. -/
def buildAux : Nat → List String → String
  | _, [] => ""
  | _, [x] => x
  | 0, _ :: _ :: _ => ""
  | fuel + 1, a :: b :: rest => buildAux fuel (buildNextLevel (a :: b :: rest))

def buildTreeFromLeaves (leaves : List String) : String := buildAux leaves.length leaves

/-- MerkleTree.buildTree followed by getRoot on a list of blocks; the null
root of an empty tree is modelled by the (equally falsy) empty string. -/
def merkleRoot (blocks : List Block) : String :=
  if blocks.isEmpty then "" else buildTreeFromLeaves (blocks.map (fun b => b.hash))

/-- MerkleTree.generateProof's while loop: at each level with more than one
node, push the sibling (skipping it with only a console warning when the
self-paired last node has no sibling in range) and move to the parent. -/
def generateProofAux : Nat → List String → Nat → List ProofElem
  | 0, _, _ => []
  | fuel + 1, level, i =>
    if level.length ≤ 1 then []
    else
      let isRight := i % 2 == 1
      let sib := if isRight then i - 1 else i + 1
      let tail := generateProofAux fuel (buildNextLevel level) (i / 2)
      match level.get? sib with
      | some h => { hash := h, position := if isRight then Side.left else Side.right } :: tail
      | none => tail

/-- MerkleTree.generateProof over the leaves of a chain; none models the
thrown out-of-range error. -/
def generateProof (blocks : List Block) (i : Nat) : Option (List ProofElem) :=
  let leaves := blocks.map (fun b => b.hash)
  if leaves.length ≤ i then none
  else some (generateProofAux leaves.length leaves i)

/-- The folding loop of MerkleTree.verifyProof (per-element empty-hash guard
included; the position field is an enum and is never empty). -/
def verifyGo : String → List ProofElem → String → Bool
  | cur, [], root => cur == root
  | cur, e :: rest, root =>
    if e.hash == "" then false
    else match e.position with
      | .left => verifyGo (sha256 (e.hash ++ cur)) rest root
      | .right => verifyGo (sha256 (cur ++ e.hash)) rest root

/-- MerkleTree.verifyProof: the initial guard rejects a falsy leaf hash or
root (a proof array is never falsy in JavaScript). -/
def verifyProof (blockHash : String) (proof : List ProofElem) (root : String) : Bool :=
  if blockHash == "" || root == "" then false
  else verifyGo blockHash proof root

/-- ChainValidator.validateBlock (merkle-tree.js): structure, position and
hash checks; note there is no previousHash link check in this validator. -/
def validateBlockM (b : Block) (index : Nat) : Bool :=
  b.index == index && b.hash == wireHash b

/-- The block loop of ChainValidator.validateChainWithMerkle: basic
validation always runs; Merkle proof verification is skipped for
chain lengths below 4 and (a temporary fix in the source) below 20, and a
failed or erroring proof is forgiven when the length is below 10. -/
def vcwmGo (n : Nat) (leaves : List String) (root : String) : Nat → List Block → Bool
  | _, [] => true
  | i, b :: rest =>
    if !(validateBlockM b i) then false
    else if n < 4 then vcwmGo n leaves root (i + 1) rest
    else if n < 20 then vcwmGo n leaves root (i + 1) rest
    else
      match (if leaves.length ≤ i then none
             else some (generateProofAux leaves.length leaves i) : Option (List ProofElem)) with
      | some proof =>
        if verifyProof b.hash proof root then vcwmGo n leaves root (i + 1) rest
        else if n < 10 then vcwmGo n leaves root (i + 1) rest
        else false
      | none =>
        if n < 10 then vcwmGo n leaves root (i + 1) rest
        else false

/-- ChainValidator.validateChainWithMerkle. -/
def validateChainWithMerkle (chain : List Block) : Bool :=
  if chain.isEmpty then false
  else
    vcwmGo chain.length (chain.map (fun b => b.hash))
      (buildTreeFromLeaves (chain.map (fun b => b.hash))) 0 chain

/-- Basic-only whole-chain validation: validateBlock on every block with its
position. -/
def basicBlocksOk : Nat → List Block → Bool
  | _, [] => true
  | i, b :: rest => validateBlockM b i && basicBlocksOk (i + 1) rest

/-- A three-block list whose leaf hashes are a, b, c: the smallest tree with
a self-paired node. -/
def t3 : List Block := [⟨0, "", "", "", "a"⟩, ⟨1, "", "", "", "b"⟩, ⟨2, "", "", "", "c"⟩]

/-- Claim C4 (failing input): in the 3-leaf tree the node of block 2 is
self-paired at level 0, generateProof skips the out-of-range sibling (only
warning), so the proof misses the self-pairing step and verification folds
to the wrong root: verify(chain[2].hash, proof(chain,2), root(chain)) is
false, refuting P3; index 0, whose path never self-pairs, still verifies. -/
theorem C4_self_paired_proof_fails :
    2 < t3.length ∧
    generateProof t3 2 = some [{ hash := sha256 ("a" ++ "b"), position := Side.left }] ∧
    (generateProof t3 2).map (fun pf => verifyProof "c" pf (merkleRoot t3)) = some false ∧
    (generateProof t3 0).map (fun pf => verifyProof "a" pf (merkleRoot t3)) = some true := by
  refine ⟨by decide, by decide, by decide, by decide⟩

/-- When 4 <= n < 20, the validateChainWithMerkle loop reduces to the
basic per-block checks: both skip branches fire before any proof is
generated. -/
theorem vcwmGo_skip (n : Nat) (leaves : List String) (root : String)
    (h4 : 4 ≤ n) (h20 : n < 20) :
    ∀ (rest : List Block) (i : Nat), vcwmGo n leaves root i rest = basicBlocksOk i rest := by
  intro rest
  induction rest with
  | nil => intro i; rfl
  | cons b bs ih =>
    intro i
    have h4' : ¬ n < 4 := Nat.not_lt.mpr h4
    by_cases hb : validateBlockM b i = true
    · simp [vcwmGo, basicBlocksOk, hb, h4', h20, ih]
    · have hb' : validateBlockM b i = false := by
        revert hb; cases validateBlockM b i <;> simp
      simp [vcwmGo, basicBlocksOk, hb']

/-- Blocks for the C2 counterexample: each passes validateBlock (correct
position and hash) so the whole chain passes basic validation. -/
def mcB (i : Nat) : Block :=
  ⟨i, "m", "d", "q", sha256 (toString i ++ "m" ++ "d" ++ "q")⟩

def mchain : List Block := [mcB 0, mcB 1, mcB 2, mcB 3, mcB 4]

/-- Claim C2 (counterexample): a chain of length 5 (at least 4) in which
block 4's generated Merkle proof does not verify against the locally
computed root (its level-0 node is self-paired and the proof misses that
step), yet validateChainWithMerkle returns true - the source skips Merkle
proof verification entirely for chains shorter than 20 blocks. -/
theorem C2_counterexample :
    4 ≤ mchain.length ∧ validateChainWithMerkle mchain = true ∧
    (generateProof mchain 4).map
      (fun pf => verifyProof (mcB 4).hash pf (merkleRoot mchain)) = some false := by
  refine ⟨by decide, by decide, by decide⟩

/-- Claim C2 (corrected): for chains of length at least 4 but below 20,
validateChainWithMerkle does not verify any Merkle proof: it equals the
basic per-block validation (structure, position and hash of every block);
proofs are generated and verified only for chains of length at least 20. -/
theorem C2_merkle_skipped_for_lengths_4_to_19 (chain : List Block)
    (h4 : 4 ≤ chain.length) (h20 : chain.length < 20) :
    validateChainWithMerkle chain = basicBlocksOk 0 chain := by
  have hne : chain.isEmpty = false := by
    cases chain with
    | nil => exact absurd h4 (by decide)
    | cons b bs => rfl
  unfold validateChainWithMerkle
  rw [hne, if_neg (by simp)]
  exact vcwmGo_skip chain.length _ _ h4 h20 chain 0

def junkB (i : Nat) : Block := ⟨i, "jt", "jd", "jp", "jh"⟩

def junkChain5 : List Block := [junkB 0, junkB 1, junkB 2, junkB 3, junkB 4]

/-- Witness for C2_merkle_skipped_for_lengths_4_to_19 on a 5-block chain. -/
theorem C2_merkle_skipped_for_lengths_4_to_19_witness :
    4 ≤ junkChain5.length ∧ junkChain5.length < 20 ∧
    validateChainWithMerkle junkChain5 = basicBlocksOk 0 junkChain5 :=
  ⟨by decide, by decide,
    C2_merkle_skipped_for_lengths_4_to_19 junkChain5 (by decide) (by decide)⟩

/-! ## The sqlite block store and the gRPC handlers
(src/blockchain.js, src/grpc-server.js)

A store is the list of rows of the blocks table in insertion order; idx is
the primary key and hash is UNIQUE.  SQL queries are modelled directly:
point lookups by find?, ORDER BY idx via a merge sort, MAX(idx) and
ORDER BY idx DESC LIMIT 1 via folds. -/

/-- SELECT * FROM blocks WHERE idx = ?. -/
def dbGet (s : List Block) (i : Nat) : Option Block :=
  s.find? (fun b => b.index == i)

/-- SELECT * FROM blocks ORDER BY idx DESC LIMIT 1 (idx is unique in any
state the database accepts, so which of two equal keys wins is moot). -/
def dbLatest (s : List Block) : Option Block :=
  s.foldl
    (fun acc b =>
      match acc with
      | none => some b
      | some m => if m.index < b.index then some b else some m)
    none

def mergeByKey {α : Type} (key : α → Nat) : Nat → List α → List α → List α
  | 0, l, r => l ++ r
  | _ + 1, [], r => r
  | _ + 1, a :: l, [] => a :: l
  | fuel + 1, a :: l, b :: r =>
    if key a ≤ key b then a :: mergeByKey key fuel l (b :: r)
    else b :: mergeByKey key fuel (a :: l) r

def msortByKey {α : Type} (key : α → Nat) : Nat → List α → List α
  | 0, l => l
  | _ + 1, [] => []
  | _ + 1, [a] => [a]
  | fuel + 1, l =>
    mergeByKey key (l.length + 1) (msortByKey key fuel (l.take (l.length / 2)))
      (msortByKey key fuel (l.drop (l.length / 2)))

/-- SELECT * FROM blocks ORDER BY idx ASC. -/
def sortByIdxAsc (s : List Block) : List Block := msortByKey (fun b => b.index) s.length s

/-- _rowToBlock followed by convertChainToProto on one row: JSON.parse the
stored data text (none models the thrown SyntaxError) and re-stringify it
for the wire. -/
def rowRound (b : Block) : Option Block :=
  (parseJson b.data).map (fun d => { b with data := jsonStringify d })

/-- The consistency loop of Blockchain.getChain, which starts at array
position 1: each block's index must equal its position and its previousHash
must equal the previous block's hash. -/
def chainCheck : Nat → Block → List Block → Except String Unit
  | _, _, [] => .ok ()
  | i, prevb, b :: rest =>
    if b.index ≠ i then .error "Chain index inconsistency detected"
    else if b.previousHash ≠ prevb.hash then .error "Chain hash inconsistency detected"
    else chainCheck (i + 1) b rest

/-- Blockchain.getChain followed by convertChainToProto: order the rows,
parse every stored data text (getChain's map would throw on bad JSON),
verify consistency, and return the wire-form chain. -/
def getChainE (s : List Block) : Except String (List Block) :=
  let rows := sortByIdxAsc s
  match rows.mapM rowRound with
  | none => .error "Unexpected token in JSON"
  | some chain =>
    match rows with
    | [] => .ok chain
    | b0 :: rest =>
      match chainCheck 1 b0 rest with
      | .ok _ => .ok chain
      | .error m => .error m

/-- Blockchain.getLatestBlock: the newest row if any (whose stored data must
parse, since _rowToBlock calls JSON.parse; the returned block is modelled by
the row itself because every caller uses only its index and hash), falling
back to inserting the genesis block into an empty store. -/
def getLatestBlockE (s : List Block) : (Except String Block) × List Block :=
  match dbLatest s with
  | some row =>
    match parseJson row.data with
    | none => (.error "Unexpected token in JSON", s)
    | some _ => (.ok row, s)
  | none =>
    match dbGet s 0 with
    | some g =>
      match parseJson g.data with
      | none => (.error "Unexpected token in JSON", s)
      | some _ => (.ok g, s)
    | none => (.ok genesisBlock, s ++ [genesisBlock])

/-- INSERT INTO blocks: the primary key on idx and the UNIQUE constraint on
hash reject duplicates. -/
def insertRowE (s : List Block) (b : Block) : Except String (List Block) :=
  if s.any (fun r => r.index == b.index) then
    .error "UNIQUE constraint failed: blocks.idx"
  else if s.any (fun r => r.hash == b.hash) then
    .error "UNIQUE constraint failed: blocks.hash"
  else .ok (s ++ [b])

/-- The payload validation at the top of Blockchain.addBlock: data must be
an object whose sensor_id is a string, value a number and timestamp a
string. -/
def isValidSensorData : Json → Bool
  | .obj fields =>
    (match fields.find? (fun kv => kv.1 == "sensor_id") with
     | some (_, .str _) => true
     | _ => false) &&
    (match fields.find? (fun kv => kv.1 == "value") with
     | some (_, .num _) => true
     | _ => false) &&
    (match fields.find? (fun kv => kv.1 == "timestamp") with
     | some (_, .str _) => true
     | _ => false)
  | _ => false

/-- Blockchain.addBlock(data): validate the payload, read the latest block,
return the existing block if the next index is already taken, otherwise
build a NEW block at index latest+1 with the CURRENT time (the now
argument models new Date().toISOString()) and insert it.  Errors model the
function's throws; the store is threaded because mutations before a throw
persist. -/
def addBlockE (payload : Json) (now : String) (s : List Block) :
    (Except String Block) × List Block :=
  if !(isValidSensorData payload) then (.error "Invalid block data", s)
  else
    match getLatestBlockE s with
    | (.error m, s1) => (.error m, s1)
    | (.ok lastBlock, s1) =>
      match dbGet s1 (lastBlock.index + 1) with
      | some existing =>
        (match parseJson existing.data with
         | none => (.error "Unexpected token in JSON", s1)
         | some _ => (.ok existing, s1))
      | none =>
        let newBlock := newBlockFromData (lastBlock.index + 1) now payload lastBlock.hash
        if newBlock.previousHash ≠ lastBlock.hash then
          (.error "Block consistency error: previousHash mismatch", s1)
        else
          match insertRowE s1 newBlock with
          | .error m => (.error m, s1)
          | .ok s2 =>
            match dbGet s2 (lastBlock.index + 1) with
            | none => (.error "Failed to append block", s2)
            | some _ => (.ok newBlock, s2)

inductive GrpcCode where
  | INVALID_ARGUMENT
  | INTERNAL
deriving DecidableEq

/-- A gRPC handler outcome: a successful chain response, an error callback,
or an uncaught exception escaping the handler (crash). -/
inductive GOut where
  | ok (chain : List Block)
  | err (code : GrpcCode) (msg : String)
  | crash (msg : String)
deriving DecidableEq

/-- The AddBlock handler of src/grpc-server.js: parse the JSON data, return
the current chain unchanged if a block with the same index already exists,
otherwise call blockchain.addBlock with the PARSED data (and the receiving
node's own clock).  Every throw inside the try is surfaced as INTERNAL. -/
def addBlockHandler (req : Block) (now : String) (s : List Block) : GOut × List Block :=
  match parseJson req.data with
  | none => (.err .INVALID_ARGUMENT "Invalid JSON data", s)
  | some parsedData =>
    match dbGet s req.index with
    | some _ =>
      match getChainE s with
      | .ok chain => (.ok chain, s)
      | .error m => (.err .INTERNAL m, s)
    | none =>
      match addBlockE parsedData now s with
      | (.error m, s1) => (.err .INTERNAL m, s1)
      | (.ok _, s1) =>
        match getChainE s1 with
        | .ok chain => (.ok chain, s1)
        | .error m => (.err .INTERNAL m, s1)

/-- The tail of ReceiveBlock after the duplicate check: the admission window
(more than latest.index + 2 ahead is rejected), then the previousHash
reconciliation with a one-shot sync (syncFn; none models a throwing sync),
then blockchain.addBlock with the parsed data.  The Bool output reports
whether a sync was attempted. -/
def receiveSeqPhase (req : Block) (parsedData : Json) (now : String) (latest : Block)
    (s1 : List Block) (syncFn : List Block → Option (List Block)) :
    GOut × List Block × Bool :=
  if latest.index + 2 < req.index then
    (.err .INVALID_ARGUMENT "Block too far ahead", s1, false)
  else if req.previousHash ≠ latest.hash then
    match syncFn s1 with
    | none => (.err .INVALID_ARGUMENT "Invalid previousHash", s1, true)
    | some s2 =>
      match getLatestBlockE s2 with
      | (.error _, s3) => (.err .INVALID_ARGUMENT "Invalid previousHash", s3, true)
      | (.ok newLatest, s3) =>
        if req.previousHash ≠ newLatest.hash then
          (.err .INVALID_ARGUMENT "Invalid previousHash after sync", s3, true)
        else
          match addBlockE parsedData now s3 with
          | (.error m, s4) => (.err .INTERNAL m, s4, true)
          | (.ok _, s4) =>
            match getChainE s4 with
            | .ok chain => (.ok chain, s4, true)
            | .error m => (.err .INTERNAL m, s4, true)
  else
    match addBlockE parsedData now s1 with
    | (.error m, s4) => (.err .INTERNAL m, s4, false)
    | (.ok _, s4) =>
      match getChainE s4 with
      | .ok chain => (.ok chain, s4, false)
      | .error m => (.err .INTERNAL m, s4, false)

/-- The ReceiveBlock handler of src/grpc-server.js: parse the JSON data,
read the latest block (outside any try, so a storage error escapes as a
crash), check the hash recipe (the structure check is enforced by the
types), return the current chain for an already-present index (that inner
try swallows a getChain failure and falls through to the sequence phase),
then the admission window / previousHash / addBlock sequence. -/
def receiveBlockHandler (req : Block) (now : String) (s : List Block)
    (syncFn : List Block → Option (List Block)) : GOut × List Block × Bool :=
  match parseJson req.data with
  | none => (.err .INVALID_ARGUMENT "Invalid JSON data", s, false)
  | some parsedData =>
    match getLatestBlockE s with
    | (.error m, s1) => (.crash m, s1, false)
    | (.ok latest, s1) =>
      if req.hash ≠ wireHash req then
        (.err .INVALID_ARGUMENT "Invalid block hash", s1, false)
      else
        match dbGet s1 req.index with
        | some _ =>
          match getChainE s1 with
          | .ok chain => (.ok chain, s1, false)
          | .error _ => receiveSeqPhase req parsedData now latest s1 syncFn
        | none => receiveSeqPhase req parsedData now latest s1 syncFn

/-- Blockchain.init: SELECT MAX(idx); when the table is empty, insert the
canonical genesis block. -/
def lastIndexOf (s : List Block) : Option Nat :=
  s.foldl
    (fun acc b =>
      match acc with
      | none => some b.index
      | some m => some (max m b.index))
    none

def initChain (s : List Block) : List Block :=
  match lastIndexOf s with
  | none => s ++ [genesisBlock]
  | some _ => s

/-! ### Claim C7: deterministic genesis -/

/-- Claim C7 (confirmed): init on an empty store creates exactly the
canonical genesis block: index 0, the fixed timestamp, the stringified
payload, previousHash 0, and hash SHA256 of the textual concatenation of
those fields.  Since initChain is a deterministic function of the store,
two isolated nodes initialised on empty stores hold identical chains, so
their latest().hash values coincide. -/
theorem C7_genesis_deterministic :
    initChain [] = [genesisBlock] ∧
    genesisBlock.index = 0 ∧
    genesisBlock.timestamp = "2023-01-01T00:00:00.000Z" ∧
    genesisBlock.data = "\x7b\"message\":\"Genesis Block\"\x7d" ∧
    genesisBlock.previousHash = "0" ∧
    genesisBlock.hash =
      sha256 ("0" ++ "2023-01-01T00:00:00.000Z" ++
        "\x7b\"message\":\"Genesis Block\"\x7d" ++ "0") ∧
    dbLatest (initChain []) = some genesisBlock := by
  refine ⟨rfl, rfl, rfl, by decide, rfl, by decide, rfl⟩

/-! ### Claim C6: AddBlock idempotence on index -/

def addBlockIter (req : Block) (now : String) : Nat → List Block → List Block
  | 0, s => s
  | k + 1, s => addBlockIter req now k (addBlockHandler req now s).2

/-- Claim C6 (confirmed): when the incoming block's data is JSON text (as
the wire contract requires) and a block with its index is already present,
AddBlock succeeds with the current chain, surfaces no error, and leaves the
store untouched; hence any number of repeated calls from that state leaves
the store exactly as it was (the state produced by the first call). -/
theorem C6_addBlock_idempotent_on_index (req : Block) (now : String) (s : List Block)
    (pc : List Block) (d : Json)
    (hparse : parseJson req.data = some d)
    (hexists : (dbGet s req.index).isSome = true)
    (hchain : getChainE s = .ok pc) :
    addBlockHandler req now s = (.ok pc, s) ∧
    ∀ k, addBlockIter req now k s = s := by
  have hmain : addBlockHandler req now s = (.ok pc, s) := by
    unfold addBlockHandler
    cases hg : dbGet s req.index with
    | none => rw [hg] at hexists; simp at hexists
    | some b => simp only [hparse, hg, hchain]
  refine ⟨hmain, ?_⟩
  intro k
  induction k with
  | zero => rfl
  | succ n ih =>
    show addBlockIter req now n (addBlockHandler req now s).2 = s
    rw [hmain]
    exact ih

def wStore : List Block := [⟨0, "gt", "\x7b\x7d", "0", "gh"⟩]

def wReq : Block := ⟨0, "rt", "\x7b\x7d", "rp", "rh"⟩

/-- Witness for C6_addBlock_idempotent_on_index: a one-block store and a
request re-using its index. -/
theorem C6_addBlock_idempotent_on_index_witness :
    parseJson wReq.data = some (.obj []) ∧
    (dbGet wStore wReq.index).isSome = true ∧
    getChainE wStore = .ok wStore ∧
    addBlockHandler wReq "wnow" wStore = (.ok wStore, wStore) ∧
    ∀ k, addBlockIter wReq "wnow" k wStore = wStore := by
  have h := C6_addBlock_idempotent_on_index wReq "wnow" wStore wStore (.obj [])
    rfl (by decide) rfl
  exact ⟨rfl, by decide, rfl, h.1, h.2⟩

/-! ### Claim C3: what the receiver of a broadcast block actually stores -/

def sensorPayload : Json :=
  .obj [("sensor_id", .str "validator-01"), ("value", .num 100),
        ("timestamp", .str "2024-01-01T00:01:00.000Z")]

def tSender : String := "2024-01-01T00:01:00.100Z"

def tReceiver : String := "2024-01-01T00:01:00.200Z"

/-- The block node A appends and broadcasts (index 1, linked to genesis,
correct hash; its wire form carries the stringified payload, which is
exactly its data field). -/
def senderBlock : Block := newBlockFromData 1 tSender sensorPayload genesisBlock.hash

/-- The block the receiving node actually persists: rebuilt from the parsed
payload with the RECEIVER's clock and therefore a different hash. -/
def receiverStored : Block := newBlockFromData 1 tReceiver sensorPayload genesisBlock.hash

/-- Claim C3 (failing input): node B, at genesis, receives via AddBlock the
valid immediate-next block broadcast by node A; AddBlock parses the data
and calls blockchain.addBlock(parsedData), which constructs a NEW block
with new Date().toISOString() - the receiver's clock - so the stored block
has the receiver's timestamp and a different hash, and B.chain[1].hash is
not equal to A.chain[1].hash (the handler still logs and returns success). -/
theorem C3_receiver_rebuilds_block :
    senderBlock.hash = wireHash senderBlock ∧
    senderBlock.previousHash = genesisBlock.hash ∧
    (addBlockHandler senderBlock tReceiver [genesisBlock]).2 =
      [genesisBlock, receiverStored] ∧
    (addBlockHandler senderBlock tReceiver [genesisBlock]).1 =
      .ok [genesisBlock, receiverStored] ∧
    receiverStored.index = senderBlock.index ∧
    receiverStored.data = senderBlock.data ∧
    receiverStored.timestamp = tReceiver ∧
    senderBlock.timestamp = tSender ∧
    tReceiver ≠ tSender ∧
    receiverStored.hash ≠ senderBlock.hash := by
  refine ⟨rfl, rfl, by decide, by decide, rfl, rfl, rfl, rfl, by decide, by decide⟩

/-! ### Claim C9: the ReceiveBlock admission window -/

def badFarBlock : Block := ⟨3, "ft", "\x7b\x7d", "fp", "deadbeef"⟩

/-- Claim C9 (counterexample): a block whose index exceeds the local latest
index by more than 2 but whose hash is invalid is rejected as Invalid block
hash, not Block too far ahead: the admission window check runs only after
the JSON, structure, hash and duplicate checks, so the rejection is not
regardless of the block's validity. -/
theorem C9_counterexample :
    genesisBlock.index + 2 < badFarBlock.index ∧
    receiveBlockHandler badFarBlock "nnow" [genesisBlock] (fun t => some t) =
      (.err .INVALID_ARGUMENT "Invalid block hash", [genesisBlock], false) := by
  refine ⟨by decide, by decide⟩

/-- Claim C9 (corrected): for every received block that parses as JSON, has
a correct hash and is not already present, if its index exceeds the local
latest index by more than 2 then ReceiveBlock rejects it with
InvalidArgument Block too far ahead, without attempting any sync (the
result holds for every sync function, and the reported sync flag is false)
and without touching the store. -/
theorem C9_window_rejects_valid_far_blocks (req : Block) (now : String)
    (s : List Block) (syncFn : List Block → Option (List Block)) (lb : Block) (d : Json)
    (hlatest : dbLatest s = some lb)
    (hlbparse : (parseJson lb.data).isSome = true)
    (hparse : parseJson req.data = some d)
    (hhash : req.hash = wireHash req)
    (hnotpresent : dbGet s req.index = none)
    (hfar : lb.index + 2 < req.index) :
    receiveBlockHandler req now s syncFn =
      (.err .INVALID_ARGUMENT "Block too far ahead", s, false) := by
  have hgl : getLatestBlockE s = (.ok lb, s) := by
    unfold getLatestBlockE
    simp only [hlatest]
    cases hp : parseJson lb.data with
    | none => rw [hp] at hlbparse; simp at hlbparse
    | some v => simp only [hp]
  have hh : ¬ (req.hash ≠ wireHash req) := fun hne => hne hhash
  unfold receiveBlockHandler
  simp only [hparse, hgl]
  rw [if_neg hh]
  simp only [hnotpresent]
  unfold receiveSeqPhase
  rw [if_pos hfar]

def validFarBlock : Block :=
  ⟨3, "vt", "\x7b\x7d", "vp", sha256 ("3" ++ "vt" ++ "\x7b\x7d" ++ "vp")⟩

/-- Witness for C9_window_rejects_valid_far_blocks: a correctly hashed block
three ahead of a genesis-only store. -/
theorem C9_window_rejects_valid_far_blocks_witness :
    dbLatest [genesisBlock] = some genesisBlock ∧
    (parseJson genesisBlock.data).isSome = true ∧
    parseJson validFarBlock.data = some (.obj []) ∧
    validFarBlock.hash = wireHash validFarBlock ∧
    dbGet [genesisBlock] validFarBlock.index = none ∧
    genesisBlock.index + 2 < validFarBlock.index ∧
    receiveBlockHandler validFarBlock "nnow" [genesisBlock] (fun t => some t) =
      (.err .INVALID_ARGUMENT "Block too far ahead", [genesisBlock], false) :=
  ⟨rfl, by decide, rfl, by decide, by decide, by decide,
    C9_window_rejects_valid_far_blocks validFarBlock "nnow" [genesisBlock]
      (fun t => some t) genesisBlock (.obj []) rfl (by decide) rfl (by decide)
      (by decide) (by decide)⟩

/-! ## Chain pruning (src/chain-pruning.js)

The schema (blockchain.js initializeDatabase) creates the tables blocks and
block_archive; the pruning module's genesis-pointer UPDATE and its restore
INSERT both name a table called block, which does not exist, so
better-sqlite3 throws no such table on those statements. -/

instance {ε α : Type} [DecidableEq ε] [DecidableEq α] : DecidableEq (Except ε α) :=
  fun a b =>
    match a, b with
    | .error e, .error f =>
      if h : e = f then .isTrue (congrArg Except.error h)
      else .isFalse (fun hc => h (Except.error.inj hc))
    | .ok x, .ok y =>
      if h : x = y then .isTrue (congrArg Except.ok h)
      else .isFalse (fun hc => h (Except.ok.inj hc))
    | .error _, .ok _ => .isFalse (fun hc => Except.noConfusion hc)
    | .ok _, .error _ => .isFalse (fun hc => Except.noConfusion hc)

/-- The two tables the pruning engine touches: the main blocks table and
block_archive, whose rows carry an archived_at stamp. -/
structure ArchState where
  blocks : List Block
  archive : List (Block × String)
deriving DecidableEq

/-- ChainPruning.shouldPrune: chain length above the threshold 1000 and at
least archiveInterval (24 h in ms) since the last pruning; getChain's
possible throw propagates (shouldPrune is called before the try). -/
def shouldPruneE (st : ArchState) (now lastPruningTime : Nat) : Except String Bool :=
  match getChainE st.blocks with
  | .error m => .error m
  | .ok chain =>
    .ok (decide (1000 < chain.length) && decide (86400000 < now - lastPruningTime))

/-- ChainPruning.archiveBlocks: SELECT the rows below upTo in index order
and INSERT each into block_archive stamped with the archive time; a
per-row catch skips rows the primary key rejects. -/
def archiveBlocksRun (st : ArchState) (upTo : Nat) (archiveTime : String) :
    Nat × ArchState :=
  let rows := (sortByIdxAsc st.blocks).filter (fun b => b.index < upTo)
  rows.foldl
    (fun acc b =>
      if acc.2.archive.any (fun ab => ab.1.index == b.index) then acc
      else (acc.1 + 1, { acc.2 with archive := acc.2.archive ++ [(b, archiveTime)] }))
    (0, st)

/-- ChainPruning.pruneChain.  pruneIndex models Math.floor(length * 0.8)
as length * 8 / 10 (exact for the sizes used here, e.g. 1001).  After
archiving and deleting, the source runs UPDATE block SET previousHash ...
WHERE idx = 0 when a first remaining block exists: the table block does not
exist, the statement throws, the catch swallows the error, and
lastPruningTime is left unchanged (the result pairs the new state with the
resulting lastPruningTime; .error models a throw outside the try). -/
def pruneChainE (st : ArchState) (now lastPruningTime : Nat) (nowIso : String) :
    Except String (ArchState × Nat) :=
  match shouldPruneE st now lastPruningTime with
  | .error m => .error m
  | .ok false => .ok (st, lastPruningTime)
  | .ok true =>
    match getChainE st.blocks with
    | .error _ => .ok (st, lastPruningTime)
    | .ok chain =>
      let pruneIndex := chain.length * 8 / 10
      if pruneIndex < 100 then .ok (st, lastPruningTime)
      else
        let st1 := (archiveBlocksRun st pruneIndex nowIso).2
        let st2 := { st1 with blocks := st1.blocks.filter (fun b => ¬ (b.index < pruneIndex)) }
        match dbGet st2.blocks pruneIndex with
        | some _ => .ok (st2, lastPruningTime)
        | none => .ok (st2, now)

/-- One iteration of ChainPruning.restoreArchivedBlocks: if no main-table
row has the archived index, INSERT INTO block (idx, ...) - the table block
does not exist, the insert throws, and the per-block catch logs and
continues, so the state is unchanged either way. -/
def restoreStep (st : ArchState) (row : Block × String) : ArchState :=
  match dbGet st.blocks row.1.index with
  | some _ => st
  | none => st

/-- ChainPruning.restoreArchivedBlocks: iterate the archive rows in index
order (each iteration is a no-op because the INSERT targets the nonexistent
table block). -/
def restoreArchivedBlocks (st : ArchState) : ArchState :=
  (msortByKey (fun ab => ab.1.index) st.archive.length st.archive).foldl restoreStep st

theorem restoreStep_id (st : ArchState) (row : Block × String) :
    restoreStep st row = st := by
  unfold restoreStep
  cases dbGet st.blocks row.1.index <;> rfl

theorem foldl_restoreStep_id (l : List (Block × String)) :
    ∀ st : ArchState, l.foldl restoreStep st = st := by
  induction l with
  | nil => intro st; rfl
  | cons r rs ih =>
    intro st
    rw [List.foldl_cons, restoreStep_id]
    exact ih st

/-- Claim C8 (code bug): restoreArchivedBlocks never changes the store -
every restore INSERT targets the nonexistent table block (the schema only
creates blocks), throws, and is swallowed by the per-block catch - so for
every state, and in particular for every state a successful pruneChain run
leaves behind, restoreAll reconstitutes nothing: the pruned blocks stay out
of the main table, refuting the restore clause of P6. -/
theorem C8_restore_never_restores :
    (∀ st : ArchState, restoreArchivedBlocks st = st) ∧
    (∀ (st : ArchState) (now lastP : Nat) (iso : String) (st2 : ArchState) (t2 : Nat),
      pruneChainE st now lastP iso = Except.ok (st2, t2) →
      restoreArchivedBlocks st2 = st2) := by
  refine ⟨fun st => foldl_restoreStep_id _ st, ?_⟩
  intro st now lastP iso st2 t2 _
  exact foldl_restoreStep_id _ st2

/-- Witness for the pruning-connected half of C8_restore_never_restores:
on the empty store pruneChain is a no-op and restore leaves its result
unchanged. -/
theorem C8_restore_never_restores_witness :
    pruneChainE ⟨[], []⟩ 0 0 "x" = Except.ok (⟨[], []⟩, 0) ∧
    restoreArchivedBlocks ⟨[], []⟩ = ⟨[], []⟩ :=
  ⟨rfl, C8_restore_never_restores.2 ⟨[], []⟩ 0 0 "x" ⟨[], []⟩ 0 rfl⟩

end IotChain
